import Mathlib

/-!
# LineupIQ — verification of the feature/training/serving pipeline claims

A shallow embedding of the LineupIQ repository (fantasy-football stat
prediction).  The TypeScript frontend modules
(`packages/frontend/lib/prediction-api.ts`, the embedded fantasy-points
calculators, and `packages/frontend/convex/predictions.ts`) are translated
directly from their source.  The Python ML backend
(`packages/backend/src/lineupiq/...`) is absent from the tree — only its
planning summaries and the specification describe it — so those components
are modelled from the spec, each marked as such in its doc comment.

Numbers are embedded as `ℚ` (the code works with ordinary numeric values;
exactness of `ℚ` lets every property be decided on concrete inputs).
-/

namespace LineupIQ

/-! ## JavaScript-style rounding (prediction-api.ts / fantasy-points) -/

/-- JavaScript `Math.round`: round half toward positive infinity. -/
def jsRound (x : ℚ) : ℤ := ⌊x + 1/2⌋

/-- The rounding idiom used throughout the source: `Math.round(x * 10) / 10`,
i.e. round to one decimal place. -/
def roundTo1 (x : ℚ) : ℚ := (jsRound (x * 10) : ℚ) / 10

/-- A value representable with one decimal place. -/
def isOneDecimal (x : ℚ) : Prop := ∃ z : ℤ, x = (z : ℚ) / 10

/-- JavaScript `toUpperCase()` on the position strings in play (ASCII),
embedded structurally over the character list. -/
def toUpperStr (s : String) : String := ⟨s.data.map Char.toUpper⟩

/-- JavaScript `toLowerCase()` (ASCII), embedded structurally. -/
def toLowerStr (s : String) : String := ⟨s.data.map Char.toLower⟩

/-! ## Scoring configuration and prediction payloads (fantasy-points) -/

/-- Passing scoring rules (matches the Convex schema). -/
structure PassingRules where
  yardsPerPoint : ℚ
  tdPoints : ℚ
  intPoints : ℚ
deriving DecidableEq

/-- Rushing scoring rules. -/
structure RushingRules where
  yardsPerPoint : ℚ
  tdPoints : ℚ
deriving DecidableEq

/-- Receiving scoring rules. -/
structure ReceivingRules where
  yardsPerPoint : ℚ
  tdPoints : ℚ
  receptionPoints : ℚ
deriving DecidableEq

/-- Scoring configuration `ScoringConfig` from fantasy-points. -/
structure ScoringConfig where
  passing : PassingRules
  rushing : RushingRules
  receiving : ReceivingRules
deriving DecidableEq

/-- Response shape `QBPrediction`. -/
structure QBPrediction where
  passing_yards : ℚ
  passing_tds : ℚ
deriving DecidableEq

/-- Response shape `RBPrediction` (the API does not include receiving TDs
for RBs). -/
structure RBPrediction where
  rushing_yards : ℚ
  rushing_tds : ℚ
  carries : ℚ
  receiving_yards : ℚ
  receptions : ℚ
deriving DecidableEq

/-- Response shape `ReceiverPrediction` (WR/TE). -/
structure ReceiverPrediction where
  receiving_yards : ℚ
  receiving_tds : ℚ
  receptions : ℚ
deriving DecidableEq

/-- Function `calculateQBPoints` from fantasy-points:
`Math.round((passing_yards / yardsPerPoint + passing_tds * tdPoints) * 10) / 10`. -/
def calculateQBPoints (prediction : QBPrediction) (config : ScoringConfig) : ℚ :=
  let yardPoints := prediction.passing_yards / config.passing.yardsPerPoint
  let tdPoints := prediction.passing_tds * config.passing.tdPoints
  (jsRound ((yardPoints + tdPoints) * 10) : ℚ) / 10

/-- Function `calculateRBPoints` from fantasy-points: rushing plus receiving
contributions, rounded to one decimal. -/
def calculateRBPoints (prediction : RBPrediction) (config : ScoringConfig) : ℚ :=
  let rushYardPoints := prediction.rushing_yards / config.rushing.yardsPerPoint
  let rushTdPoints := prediction.rushing_tds * config.rushing.tdPoints
  let recYardPoints := prediction.receiving_yards / config.receiving.yardsPerPoint
  let receptionPoints := prediction.receptions * config.receiving.receptionPoints
  let total := rushYardPoints + rushTdPoints + recYardPoints + receptionPoints
  (jsRound (total * 10) : ℚ) / 10

/-- Function `calculateReceiverPoints` from fantasy-points (WR/TE). -/
def calculateReceiverPoints (prediction : ReceiverPrediction) (config : ScoringConfig) : ℚ :=
  let yardPoints := prediction.receiving_yards / config.receiving.yardsPerPoint
  let tdPoints := prediction.receiving_tds * config.receiving.tdPoints
  let receptionPoints := prediction.receptions * config.receiving.receptionPoints
  let total := yardPoints + tdPoints + receptionPoints
  (jsRound (total * 10) : ℚ) / 10

/-- The weighted sum of a QB prediction's stat fields under a scoring
configuration (the raw, unrounded total named by the spec). -/
def qbWeightedSum (p : QBPrediction) (c : ScoringConfig) : ℚ :=
  p.passing_yards / c.passing.yardsPerPoint + p.passing_tds * c.passing.tdPoints

/-- The weighted sum of an RB prediction's stat fields. -/
def rbWeightedSum (p : RBPrediction) (c : ScoringConfig) : ℚ :=
  p.rushing_yards / c.rushing.yardsPerPoint + p.rushing_tds * c.rushing.tdPoints +
    p.receiving_yards / c.receiving.yardsPerPoint + p.receptions * c.receiving.receptionPoints

/-- The weighted sum of a WR/TE prediction's stat fields. -/
def receiverWeightedSum (p : ReceiverPrediction) (c : ScoringConfig) : ℚ :=
  p.receiving_yards / c.receiving.yardsPerPoint + p.receiving_tds * c.receiving.tdPoints +
    p.receptions * c.receiving.receptionPoints

/-! ## convex/predictions.ts -/

/-- One row of the `cachedPredictions` table.  The prediction payload is
abstract to the queries (`v.any()` in the schema), embedded as a numeric
identifier. -/
structure CachedPrediction where
  playerId : String
  position : String
  week : ℕ
  season : ℕ
  payload : ℕ
  createdAt : ℚ
deriving DecidableEq

/-- The `by_player_week` index point-lookup predicate shared by both
queries. -/
def matchesPlayerWeek (pid : String) (w s : ℕ) (r : CachedPrediction) : Bool :=
  r.playerId == pid && r.week == w && r.season == s

/-- The `.sort((a, b) => b.createdAt - a.createdAt)[0]` step: first element
of the stable descending sort, i.e. the earliest-indexed row of maximal
`createdAt`. -/
def mostRecent (rs : List CachedPrediction) : Option CachedPrediction :=
  match rs with
  | [] => none
  | r :: rest => some (rest.foldl (fun acc x => if acc.createdAt < x.createdAt then x else acc) r)

/-- Query `predictions.getByPlayerWeek`: indexed point query returning `.first()`.
The database is embedded as the index-ordered row list. -/
def getByPlayerWeek (db : List CachedPrediction) (playerId : String)
    (week season : ℕ) : Option CachedPrediction :=
  db.find? (matchesPlayerWeek playerId week season)

/-- Query `predictions.getByPlayer`: with both `week` and `season` supplied it runs
the same indexed point query; otherwise it returns the most recent row for
the player by `createdAt`. -/
def getByPlayer (db : List CachedPrediction) (playerId : String)
    (week season : Option ℕ) : Option CachedPrediction :=
  match week, season with
  | some w, some s => db.find? (matchesPlayerWeek playerId w s)
  | _, _ => mostRecent (db.filter (fun r => r.playerId == playerId))

/-! ## prediction-api.ts routing -/

/-- The HTTP request a client-side predict call ultimately issues: the
endpoint path (the features travel in the JSON body unchanged, embedded
abstractly). -/
structure ApiRequest (α : Type) where
  path : String
  body : α
deriving DecidableEq

/-- Function `makePredictionRequest`: POSTs to `/predict/` followed by the lowercased
position. -/
def makePredictionRequest (position : String) (features : α) : ApiRequest α :=
  ⟨"/predict/" ++ toLowerStr position, features⟩

/-- Function `predictQB`. -/
def predictQB (features : α) : ApiRequest α := makePredictionRequest "qb" features

/-- Function `predictRB`. -/
def predictRB (features : α) : ApiRequest α := makePredictionRequest "rb" features

/-- Function `predictWR`. -/
def predictWR (features : α) : ApiRequest α := makePredictionRequest "wr" features

/-- Function `predictTE`. -/
def predictTE (features : α) : ApiRequest α := makePredictionRequest "te" features

/-- Function `predict`: uppercases the position, routes to the per-position request
builder, and throws `Unsupported position` otherwise. -/
def predict (position : String) (features : α) : Except String (ApiRequest α) :=
  let pos := toUpperStr position
  if pos == "QB" then .ok (predictQB features)
  else if pos == "RB" then .ok (predictRB features)
  else if pos == "WR" then .ok (predictWR features)
  else if pos == "TE" then .ok (predictTE features)
  else .error ("Unsupported position: " ++ position)

/-- The runtime prediction object handed to `calculateFantasyPoints` — the
TypeScript union with all stat fields present (the `as` casts merely select
fields). -/
structure PredictionPayload where
  passing_yards : ℚ
  passing_tds : ℚ
  rushing_yards : ℚ
  rushing_tds : ℚ
  carries : ℚ
  receiving_yards : ℚ
  receiving_tds : ℚ
  receptions : ℚ
deriving DecidableEq

/-- The `prediction as QBPrediction` cast. -/
def asQBPrediction (p : PredictionPayload) : QBPrediction :=
  ⟨p.passing_yards, p.passing_tds⟩

/-- The `prediction as RBPrediction` cast. -/
def asRBPrediction (p : PredictionPayload) : RBPrediction :=
  ⟨p.rushing_yards, p.rushing_tds, p.carries, p.receiving_yards, p.receptions⟩

/-- The `prediction as ReceiverPrediction` cast. -/
def asReceiverPrediction (p : PredictionPayload) : ReceiverPrediction :=
  ⟨p.receiving_yards, p.receiving_tds, p.receptions⟩

/-- Function `calculateFantasyPoints`: uppercases the position, dispatches to the
per-position calculator (WR and TE share `calculateReceiverPoints`), and
throws `Unsupported position` otherwise. -/
def calculateFantasyPoints (position : String) (prediction : PredictionPayload)
    (config : ScoringConfig) : Except String ℚ :=
  let pos := toUpperStr position
  if pos == "QB" then .ok (calculateQBPoints (asQBPrediction prediction) config)
  else if pos == "RB" then .ok (calculateRBPoints (asRBPrediction prediction) config)
  else if pos == "WR" || pos == "TE" then
    .ok (calculateReceiverPoints (asReceiverPrediction prediction) config)
  else .error ("Unsupported position: " ++ position)

/-! ## Rolling window feature builder (backend, modelled) -/

/-- Modelled from the spec: `features/rolling_stats.py` is missing from the
tree.  Inclusive trailing rolling mean at row index `k` of one player's
chronologically sorted stat column — the polars `rolling_mean` with window
`W` and `min_samples = 1` (mean over the up-to-`W` rows ending at `k`). -/
def rollingMeanInclusive (W : ℕ) (rows : List ℚ) (k : ℕ) : ℚ :=
  let window := (rows.take (k + 1)).reverse.take W
  window.sum / (window.length : ℚ)

/-- Modelled from the spec: `compute_rolling_stats` is missing from the tree.
For one player's sorted stat column, the rolling feature of the `k`-th game
is the inclusive rolling mean shifted by one game (so it covers only games
`1..k-1`), with the neutral default `0` for the player's first game. -/
def compute_rolling_stats (W : ℕ) (rows : List ℚ) : List ℚ :=
  (List.range rows.length).map (fun k =>
    if k = 0 then 0 else rollingMeanInclusive W rows (k - 1))

/-- The spec's characterization of a rolling feature: the mean of the up to
`W` immediately preceding values (minimum 1), or the neutral default `0`
when no prior value exists. -/
def rollingFeatureSpec (W : ℕ) (prior : List ℚ) : ℚ :=
  if prior = [] then 0
  else
    let window := prior.reverse.take W
    window.sum / (window.length : ℚ)

/-! ## Defensive strength ranker (backend, modelled) -/

/-- One player-week box-score row as the ranker consumes it: `opponent` is
the defending team the yards are scored against.  Teams are embedded as
numeric identifiers (the tie-break order on team identifier). -/
structure PlayerWeekRecord where
  opponent : ℕ
  season : ℕ
  week : ℕ
  yards : ℚ
deriving DecidableEq

/-- Rows that a week-`week` snapshot of season `season` may draw on: same
season, strictly earlier week. -/
def priorWeekRow (season week : ℕ) (r : PlayerWeekRecord) : Bool :=
  r.season == season && decide (r.week < week)

/-- Modelled from the spec: `compute_defensive_stats` in
`features/opponent_features.py` is missing from the tree.  Total yards
allowed by `team`'s defense over the weeks of `season` strictly before
`week`. -/
def yardsAllowedBefore (recs : List PlayerWeekRecord) (team season week : ℕ) : ℚ :=
  ((recs.filter (fun r => r.opponent == team && priorWeekRow season week r)).map
    (fun r => r.yards)).sum

/-- Ascending lexicographic comparison on (yards allowed, team identifier):
fewest yards first, ties broken by team identifier. -/
def lexLe (a b : ℕ × ℚ) : Bool :=
  decide (a.2 < b.2) || (a.2 == b.2 && decide (a.1 ≤ b.1))

/-- Insertion step of the ranking sort. -/
def insertLex (x : ℕ × ℚ) : List (ℕ × ℚ) → List (ℕ × ℚ)
  | [] => [x]
  | y :: ys => if lexLe x y then x :: y :: ys else y :: insertLex x ys

/-- Sort (team, yards-allowed) entries ascending by yards, ties by team
identifier. -/
def sortLex : List (ℕ × ℚ) → List (ℕ × ℚ)
  | [] => []
  | x :: xs => insertLex x (sortLex xs)

/-- The spec's rank normalization `(rank - 1) / (team_count - 1)`, written
with the zero-based sort position `i = rank - 1`. -/
def normalizeRank (i n : ℕ) : ℚ := (i : ℚ) / ((n : ℚ) - 1)

/-- Modelled from the spec: `compute_defensive_rankings` in
`features/opponent_features.py` is missing from the tree.  For week 1 (no
prior data) the snapshot is an explicit `none`; otherwise every team is
ranked ascending by yards allowed through the prior weeks of the season,
ties broken by team identifier, and each rank is normalized to
`(rank - 1) / (team_count - 1)`.  Output entries are
`(team, rank, normalized strength)`. -/
def compute_defensive_rankings (recs : List PlayerWeekRecord) (teams : List ℕ)
    (season week : ℕ) : Option (List (ℕ × ℕ × ℚ)) :=
  if week ≤ 1 then none
  else
    let entries := teams.map (fun t => (t, yardsAllowedBefore recs t season week))
    let sorted := sortLex entries
    some (sorted.enum.map (fun p => (p.2.1, p.1 + 1, normalizeRank p.1 sorted.length)))

/-! ## Temporal training engine: forward-chaining split (backend, modelled) -/

/-- One training sample with its time stamp (features and target abstract). -/
structure TimedSample where
  t : ℚ
  x : ℚ
deriving DecidableEq

/-- One forward-chaining fold. -/
structure Fold where
  train : List TimedSample
  val : List TimedSample
deriving DecidableEq

/-- The index folds of scikit-learn's `TimeSeriesSplit(n_splits = k)` on `n`
samples (as used by `temporal_cross_validate`): with
`test_size = n / (k + 1)`, fold `i` trains on row indices
`[0, n - (k - i) * test_size)` and validates on the next `test_size`
indices. -/
def timeSeriesSplit (n k : ℕ) : List (List ℕ × List ℕ) :=
  (List.range k).map (fun i =>
    (List.range (n - (k - i) * (n / (k + 1))),
      (List.range (n / (k + 1))).map (fun j => n - (k - i) * (n / (k + 1)) + j)))

/-- `temporal_cross_validate`: walk-forward validation over the time-ordered
dataset, one fold per `TimeSeriesSplit` split — the training rows are the
fold's train indices of `X`, the validation rows its test indices (the
per-fold fit and score consume exactly these row sets). -/
def temporal_cross_validate (data : List TimedSample) (k : ℕ) : List Fold :=
  (timeSeriesSplit data.length k).map (fun p =>
    ⟨p.1.filterMap (fun i => data.get? i), p.2.filterMap (fun i => data.get? i)⟩)

/-- The engine's default number of splits (`n_splits = 5`). -/
def defaultNumFolds : ℕ := 5

/-! ## Evaluation and diagnostics (backend, modelled) -/

/-- The three-state model health diagnosis. -/
inductive ModelHealth where
  | healthy
  | overfitting
  | underfitting
deriving DecidableEq

/-- Modelled from the spec: `models/diagnostics.py` is missing from the
tree.  The overfit ratio `holdout RMSE / training RMSE`; a perfect train fit
(zero training RMSE) has no finite ratio (`none`, the code's
`float("inf")`). -/
def overfit_ratio (train_rmse holdout_rmse : ℚ) : Option ℚ :=
  if train_rmse = 0 then none else some (holdout_rmse / train_rmse)

/-- The underfitting condition: both errors high in absolute terms (training
RMSE above the default threshold 50) and close to each other.  The spec
states no numeric closeness threshold; it is modelled as the ratio lying
within 1/10 of 1. -/
def underfitCondition (train_rmse r : ℚ) : Prop :=
  50 < train_rmse ∧ |r - 1| ≤ 1/10

instance (train_rmse r : ℚ) : Decidable (underfitCondition train_rmse r) :=
  inferInstanceAs (Decidable (_ ∧ _))

/-- Modelled from the spec: `run_diagnostics` in `models/diagnostics.py` is
missing from the tree.  Three-state diagnosis: underfitting when both RMSEs
are high and close to each other, otherwise healthy when the overfit ratio
is at most 1.3, otherwise overfitting; an infinite ratio is severe
overfitting. -/
def diagnose (train_rmse holdout_rmse : ℚ) : ModelHealth :=
  match overfit_ratio train_rmse holdout_rmse with
  | none => .overfitting
  | some r =>
    if underfitCondition train_rmse r then .underfitting
    else if r ≤ 13/10 then .healthy
    else .overfitting

/-! ## Inference cache (backend, modelled) -/

/-- One cache entry: key (the deterministic hash, embedded as a numeric
identifier), cached prediction value, and insertion time. -/
structure CacheEntry where
  key : ℕ
  value : ℚ
  insertedAt : ℚ
deriving DecidableEq

/-- Modelled from the spec: `api/cache.py` (`PredictionCache`) is missing
from the tree.  Entries are held most-recently-used first; `maxSize` bounds
the entry count and `ttl` is the time-to-live. -/
structure PredictionCache where
  entries : List CacheEntry
  maxSize : ℕ
  ttl : ℚ
  hits : ℕ
  misses : ℕ
deriving DecidableEq

/-- A fresh empty cache. -/
def emptyCache (maxSize : ℕ) (ttl : ℚ) : PredictionCache :=
  ⟨[], maxSize, ttl, 0, 0⟩

/-- Look a key up in the entry list. -/
def findEntry (es : List CacheEntry) (k : ℕ) : Option CacheEntry :=
  es.find? (fun e => e.key == k)

/-- Drop a key from the entry list. -/
def removeKey (es : List CacheEntry) (k : ℕ) : List CacheEntry :=
  es.filter (fun e => e.key != k)

/-- Modelled from the spec: `PredictionCache.get`.  A hit only if the entry
exists and `now - insertion_time < TTL`; a live hit refreshes recency; an
expired entry is lazily evicted and counted as a miss. -/
def cacheGet (c : PredictionCache) (k : ℕ) (now : ℚ) : Option ℚ × PredictionCache :=
  match findEntry c.entries k with
  | none => (none, { c with misses := c.misses + 1 })
  | some e =>
    if now - e.insertedAt < c.ttl then
      (some e.value, { c with entries := e :: removeKey c.entries k, hits := c.hits + 1 })
    else
      (none, { c with entries := removeKey c.entries k, misses := c.misses + 1 })

/-- Modelled from the spec: `PredictionCache.set`.  Insert or overwrite at
the most-recent position, then evict the least-recently-used entry (the last
one) if capacity is exceeded. -/
def cachePut (c : PredictionCache) (k : ℕ) (v : ℚ) (now : ℚ) : PredictionCache :=
  let es := ⟨k, v, now⟩ :: removeKey c.entries k
  { c with entries := if c.maxSize < es.length then es.dropLast else es }

/-- The key list of a cache, most recently used first. -/
def cacheKeys (c : PredictionCache) : List ℕ :=
  c.entries.map CacheEntry.key

/-! ## Routing case analyses (helpers) -/

/-- Case analysis of `predict`: one branch per supported uppercased
position, plus the error branch. -/
lemma predict_routes (pos : String) (f : α) :
    (toUpperStr pos = "QB" ∧ predict pos f = .ok (predictQB f)) ∨
    (toUpperStr pos = "RB" ∧ predict pos f = .ok (predictRB f)) ∨
    (toUpperStr pos = "WR" ∧ predict pos f = .ok (predictWR f)) ∨
    (toUpperStr pos = "TE" ∧ predict pos f = .ok (predictTE f)) ∨
    (toUpperStr pos ∉ (["QB", "RB", "WR", "TE"] : List String) ∧
      predict pos f = .error ("Unsupported position: " ++ pos)) := by
  unfold predict
  by_cases h1 : toUpperStr pos = "QB"
  · exact Or.inl ⟨h1, by simp [h1]⟩
  by_cases h2 : toUpperStr pos = "RB"
  · exact Or.inr (Or.inl ⟨h2, by simp [h1, h2]⟩)
  by_cases h3 : toUpperStr pos = "WR"
  · exact Or.inr (Or.inr (Or.inl ⟨h3, by simp [h1, h2, h3]⟩))
  by_cases h4 : toUpperStr pos = "TE"
  · exact Or.inr (Or.inr (Or.inr (Or.inl ⟨h4, by simp [h1, h2, h3, h4]⟩)))
  · exact Or.inr (Or.inr (Or.inr (Or.inr
      ⟨by simp [h1, h2, h3, h4], by simp [h1, h2, h3, h4]⟩)))

/-- Case analysis of `calculateFantasyPoints`: WR and TE share the receiver
branch. -/
lemma calculateFantasyPoints_routes (pos : String) (p : PredictionPayload)
    (cfg : ScoringConfig) :
    (toUpperStr pos = "QB" ∧ calculateFantasyPoints pos p cfg =
      .ok (calculateQBPoints (asQBPrediction p) cfg)) ∨
    (toUpperStr pos = "RB" ∧ calculateFantasyPoints pos p cfg =
      .ok (calculateRBPoints (asRBPrediction p) cfg)) ∨
    ((toUpperStr pos = "WR" ∨ toUpperStr pos = "TE") ∧ calculateFantasyPoints pos p cfg =
      .ok (calculateReceiverPoints (asReceiverPrediction p) cfg)) ∨
    (toUpperStr pos ∉ (["QB", "RB", "WR", "TE"] : List String) ∧
      calculateFantasyPoints pos p cfg = .error ("Unsupported position: " ++ pos)) := by
  unfold calculateFantasyPoints
  by_cases h1 : toUpperStr pos = "QB"
  · exact Or.inl ⟨h1, by simp [h1]⟩
  by_cases h2 : toUpperStr pos = "RB"
  · exact Or.inr (Or.inl ⟨h2, by simp [h1, h2]⟩)
  by_cases h3 : toUpperStr pos = "WR"
  · exact Or.inr (Or.inr (Or.inl ⟨Or.inl h3, by simp [h1, h2, h3]⟩))
  by_cases h4 : toUpperStr pos = "TE"
  · exact Or.inr (Or.inr (Or.inl ⟨Or.inr h4, by simp [h1, h2, h3, h4]⟩))
  · exact Or.inr (Or.inr (Or.inr
      ⟨by simp [h1, h2, h3, h4], by simp [h1, h2, h3, h4]⟩))

/-- The successful result of `predict` as a function of the uppercased
position alone. -/
lemma predict_toOption (pos : String) (f : α) :
    (predict pos f).toOption =
      (if toUpperStr pos = "QB" then some (predictQB f)
       else if toUpperStr pos = "RB" then some (predictRB f)
       else if toUpperStr pos = "WR" then some (predictWR f)
       else if toUpperStr pos = "TE" then some (predictTE f)
       else none) := by
  unfold predict
  by_cases h1 : toUpperStr pos = "QB"
  · simp [h1, Except.toOption]
  by_cases h2 : toUpperStr pos = "RB"
  · simp [h1, h2, Except.toOption]
  by_cases h3 : toUpperStr pos = "WR"
  · simp [h1, h2, h3, Except.toOption]
  by_cases h4 : toUpperStr pos = "TE"
  · simp [h1, h2, h3, h4, Except.toOption]
  · simp [h1, h2, h3, h4, Except.toOption]

/-- The successful result of `calculateFantasyPoints` as a function of the
uppercased position alone. -/
lemma calculateFantasyPoints_toOption (pos : String) (p : PredictionPayload)
    (cfg : ScoringConfig) :
    (calculateFantasyPoints pos p cfg).toOption =
      (if toUpperStr pos = "QB" then some (calculateQBPoints (asQBPrediction p) cfg)
       else if toUpperStr pos = "RB" then some (calculateRBPoints (asRBPrediction p) cfg)
       else if toUpperStr pos = "WR" ∨ toUpperStr pos = "TE" then
         some (calculateReceiverPoints (asReceiverPrediction p) cfg)
       else none) := by
  unfold calculateFantasyPoints
  by_cases h1 : toUpperStr pos = "QB"
  · simp [h1, Except.toOption]
  by_cases h2 : toUpperStr pos = "RB"
  · simp [h1, h2, Except.toOption]
  by_cases h3 : toUpperStr pos = "WR"
  · simp [h1, h2, h3, Except.toOption]
  by_cases h4 : toUpperStr pos = "TE"
  · simp [h1, h2, h3, h4, Except.toOption]
  · simp [h1, h2, h3, h4, Except.toOption]

/-- A concrete receiver-shaped prediction payload. -/
def samplePayload : PredictionPayload := ⟨0, 0, 0, 0, 0, 55, 1, 4⟩

/-- A concrete scoring configuration (standard PPR-style rules). -/
def sampleConfig : ScoringConfig := ⟨⟨25, 4, -2⟩, ⟨10, 6⟩, ⟨10, 6, 1⟩⟩

/-! ## Theorems -/

/-- C8: every predicted numeric value served to the consumer is rounded to
one decimal place; the embedded fantasy-point calculators
`calculateQBPoints`, `calculateRBPoints` and `calculateReceiverPoints` each
return `Math.round(raw_total * 10) / 10` of the weighted sum of the
prediction's stat fields, for every prediction and scoring
configuration. -/
theorem C8_calculators_round_weighted_sum_to_one_decimal
    (qb : QBPrediction) (rb : RBPrediction) (rcv : ReceiverPrediction)
    (c : ScoringConfig) (x : ℚ) :
    calculateQBPoints qb c = roundTo1 (qbWeightedSum qb c) ∧
    calculateRBPoints rb c = roundTo1 (rbWeightedSum rb c) ∧
    calculateReceiverPoints rcv c = roundTo1 (receiverWeightedSum rcv c) ∧
    isOneDecimal (calculateQBPoints qb c) ∧
    isOneDecimal (calculateRBPoints rb c) ∧
    isOneDecimal (calculateReceiverPoints rcv c) ∧
    isOneDecimal (roundTo1 x) := by
  refine ⟨rfl, rfl, rfl, ?_, ?_, ?_, ?_⟩
  · exact ⟨jsRound (qbWeightedSum qb c * 10), rfl⟩
  · exact ⟨jsRound ((rb.rushing_yards / c.rushing.yardsPerPoint +
      rb.rushing_tds * c.rushing.tdPoints +
      rb.receiving_yards / c.receiving.yardsPerPoint +
      rb.receptions * c.receiving.receptionPoints) * 10), rfl⟩
  · exact ⟨jsRound ((rcv.receiving_yards / c.receiving.yardsPerPoint +
      rcv.receiving_tds * c.receiving.tdPoints +
      rcv.receptions * c.receiving.receptionPoints) * 10), rfl⟩
  · exact ⟨jsRound (x * 10), rfl⟩

/-- C9: for every database state and `(playerId, week, season)` triple,
`predictions.getByPlayer` with both `week` and `season` supplied returns
exactly the same record (or `null`) as `predictions.getByPlayerWeek` with
the same arguments. -/
theorem C9_getByPlayer_refines_getByPlayerWeek
    (db : List CachedPrediction) (playerId : String) (week season : ℕ) :
    getByPlayer db playerId (some week) (some season) =
      getByPlayerWeek db playerId week season := rfl

/-- C3 counterexample: a six-sample dataset sorted by time whose first two
samples share the same date.  With the default five `TimeSeriesSplit` folds,
the first fold trains on the first row and validates on the second, so a
training sample is not strictly earlier in time than a validation sample of
the same fold. -/
theorem C3_counterexample :
    ([⟨1, 10⟩, ⟨1, 20⟩, ⟨2, 0⟩, ⟨3, 0⟩, ⟨4, 0⟩, ⟨5, 0⟩] :
        List TimedSample).Pairwise (fun s s' => s.t ≤ s'.t) ∧
      (⟨[⟨1, 10⟩], [⟨1, 20⟩]⟩ : Fold) ∈
        temporal_cross_validate
          [⟨1, 10⟩, ⟨1, 20⟩, ⟨2, 0⟩, ⟨3, 0⟩, ⟨4, 0⟩, ⟨5, 0⟩] defaultNumFolds ∧
      (⟨1, 10⟩ : TimedSample) ∈ (⟨[⟨1, 10⟩], [⟨1, 20⟩]⟩ : Fold).train ∧
      (⟨1, 20⟩ : TimedSample) ∈ (⟨[⟨1, 10⟩], [⟨1, 20⟩]⟩ : Fold).val ∧
      ¬ (⟨1, 10⟩ : TimedSample).t < (⟨1, 20⟩ : TimedSample).t := by
  refine ⟨?_, ?_, ?_, ?_, ?_⟩ <;> decide

/-- C3 (amended): in every `TimeSeriesSplit` fold every training row index
precedes every validation row index, so over a dataset sorted by time no
training sample is later-dated than any validation sample of its fold; when
all timestamps are distinct (strictly increasing) the separation is strict.
With tied timestamps a training sample and a validation sample may share a
date, so strict inequality is not guaranteed. -/
theorem C3_amended_forward_chaining_no_leakage
    (n k : ℕ) (data : List TimedSample) (fold : Fold) (a b : TimedSample)
    (hf : fold ∈ temporal_cross_validate data k)
    (ha : a ∈ fold.train) (hb : b ∈ fold.val) :
    (∀ p ∈ timeSeriesSplit n k, ∀ i ∈ p.1, ∀ j ∈ p.2, i < j) ∧
    (data.Pairwise (fun s s' => s.t ≤ s'.t) → a.t ≤ b.t) ∧
    (data.Pairwise (fun s s' => s.t < s'.t) → a.t < b.t) := by
  have hsep : ∀ (m kk : ℕ), ∀ p ∈ timeSeriesSplit m kk, ∀ i ∈ p.1, ∀ j ∈ p.2, i < j := by
    intro m kk p hp i hi j hj
    rcases List.mem_map.mp hp with ⟨f, _, rfl⟩
    have hi' : i < m - (kk - f) * (m / (kk + 1)) := List.mem_range.mp hi
    rcases List.mem_map.mp hj with ⟨j0, _, rfl⟩
    omega
  rcases List.mem_map.mp hf with ⟨p, hp, rfl⟩
  rcases List.mem_filterMap.mp ha with ⟨i, hi, hgi⟩
  rcases List.mem_filterMap.mp hb with ⟨j, hj, hgj⟩
  have hij : i < j := hsep data.length k p hp i hi j hj
  rcases List.get?_eq_some.mp hgi with ⟨hilen, hgi'⟩
  rcases List.get?_eq_some.mp hgj with ⟨hjlen, hgj'⟩
  refine ⟨hsep n k, ?_, ?_⟩
  · intro hsorted
    have h := List.pairwise_iff_get.mp hsorted ⟨i, hilen⟩ ⟨j, hjlen⟩
      (Fin.mk_lt_mk.mpr hij)
    rw [hgi', hgj'] at h
    exact h
  · intro hsorted
    have h := List.pairwise_iff_get.mp hsorted ⟨i, hilen⟩ ⟨j, hjlen⟩
      (Fin.mk_lt_mk.mpr hij)
    rw [hgi', hgj'] at h
    exact h

/-- Witness for C3 at the default five folds: a concrete six-sample
time-ordered dataset, the first produced fold, one sample from each side,
and the non-strict (and, here, strict) temporal separation. -/
theorem C3_witness :
    ((⟨[⟨1, 0⟩], [⟨2, 0⟩]⟩ : Fold) ∈
        temporal_cross_validate
          [⟨1, 0⟩, ⟨2, 0⟩, ⟨3, 0⟩, ⟨4, 0⟩, ⟨5, 0⟩, ⟨6, 0⟩] defaultNumFolds ∧
      (⟨1, 0⟩ : TimedSample) ∈ (⟨[⟨1, 0⟩], [⟨2, 0⟩]⟩ : Fold).train ∧
      (⟨2, 0⟩ : TimedSample) ∈ (⟨[⟨1, 0⟩], [⟨2, 0⟩]⟩ : Fold).val) ∧
    ((∀ p ∈ timeSeriesSplit 6 defaultNumFolds, ∀ i ∈ p.1, ∀ j ∈ p.2, i < j) ∧
      (([⟨1, 0⟩, ⟨2, 0⟩, ⟨3, 0⟩, ⟨4, 0⟩, ⟨5, 0⟩, ⟨6, 0⟩] :
          List TimedSample).Pairwise (fun s s' => s.t ≤ s'.t) →
        (⟨1, 0⟩ : TimedSample).t ≤ (⟨2, 0⟩ : TimedSample).t) ∧
      (([⟨1, 0⟩, ⟨2, 0⟩, ⟨3, 0⟩, ⟨4, 0⟩, ⟨5, 0⟩, ⟨6, 0⟩] :
          List TimedSample).Pairwise (fun s s' => s.t < s'.t) →
        (⟨1, 0⟩ : TimedSample).t < (⟨2, 0⟩ : TimedSample).t)) :=
  ⟨⟨by decide, by decide, by decide⟩,
    C3_amended_forward_chaining_no_leakage 6 defaultNumFolds
      [⟨1, 0⟩, ⟨2, 0⟩, ⟨3, 0⟩, ⟨4, 0⟩, ⟨5, 0⟩, ⟨6, 0⟩]
      ⟨[⟨1, 0⟩], [⟨2, 0⟩]⟩ ⟨1, 0⟩ ⟨2, 0⟩ (by decide) (by decide) (by decide)⟩

/-- C5 counterexample: with training RMSE 60 and holdout RMSE 60 the overfit
ratio is 1, which is at most 1.3, yet the diagnosis is not `healthy` (the
underfitting state takes precedence), refuting "healthy exactly when the
ratio is ≤ 1.3". -/
theorem C5_counterexample :
    overfit_ratio 60 60 = some 1 ∧ (1 : ℚ) ≤ 13/10 ∧
      diagnose 60 60 ≠ ModelHealth.healthy := by
  refine ⟨?_, by norm_num, ?_⟩
  · unfold overfit_ratio
    norm_num
  · have hdu : diagnose 60 60 = ModelHealth.underfitting := by
      unfold diagnose overfit_ratio
      norm_num [underfitCondition]
    rw [hdu]
    decide

/-- C5 (amended): the diagnostics layer computes
`overfit_ratio = holdout RMSE / training RMSE`; the artifact is classified
underfitting exactly when both RMSEs are high (training RMSE > 50) and close
to each other (ratio within 1/10 of 1), healthy exactly when the ratio is
≤ 1.3 and the underfitting condition does not hold, and overfitting exactly
when the ratio is > 1.3. -/
theorem C5_amended_diagnosis_classification
    (train_rmse holdout_rmse r : ℚ)
    (h : overfit_ratio train_rmse holdout_rmse = some r) :
    r = holdout_rmse / train_rmse ∧
    (diagnose train_rmse holdout_rmse = ModelHealth.healthy ↔
      r ≤ 13/10 ∧ ¬ underfitCondition train_rmse r) ∧
    (diagnose train_rmse holdout_rmse = ModelHealth.overfitting ↔ 13/10 < r) ∧
    (diagnose train_rmse holdout_rmse = ModelHealth.underfitting ↔
      underfitCondition train_rmse r) := by
  have htr : train_rmse ≠ 0 := by
    intro h0
    rw [h0] at h
    simp [overfit_ratio] at h
  have hr : r = holdout_rmse / train_rmse := by
    unfold overfit_ratio at h
    rw [if_neg htr] at h
    exact (Option.some.inj h).symm
  have hd : diagnose train_rmse holdout_rmse =
      (if underfitCondition train_rmse r then ModelHealth.underfitting
        else if r ≤ 13/10 then ModelHealth.healthy else ModelHealth.overfitting) := by
    unfold diagnose
    rw [h]
  refine ⟨hr, ?_, ?_, ?_⟩
  · rw [hd]
    by_cases hu : underfitCondition train_rmse r
    · rw [if_pos hu]
      exact iff_of_false (by decide) (fun hc => hc.2 hu)
    · rw [if_neg hu]
      by_cases hle : r ≤ 13/10
      · rw [if_pos hle]
        exact iff_of_true rfl ⟨hle, hu⟩
      · rw [if_neg hle]
        exact iff_of_false (by decide) (fun hc => hle hc.1)
  · rw [hd]
    by_cases hu : underfitCondition train_rmse r
    · rw [if_pos hu]
      have h11 : r ≤ 11/10 := by
        have := (abs_le.mp hu.2).2
        linarith
      exact iff_of_false (by decide) (by intro hc; linarith)
    · rw [if_neg hu]
      by_cases hle : r ≤ 13/10
      · rw [if_pos hle]
        exact iff_of_false (by decide) (by intro hc; linarith)
      · rw [if_neg hle]
        exact iff_of_true rfl (lt_of_not_le hle)
  · rw [hd]
    by_cases hu : underfitCondition train_rmse r
    · rw [if_pos hu]
      exact iff_of_true rfl hu
    · rw [if_neg hu]
      by_cases hle : r ≤ 13/10
      · rw [if_pos hle]
        exact iff_of_false (by decide) hu
      · rw [if_neg hle]
        exact iff_of_false (by decide) hu

/-- Witness for C5: training RMSE 10 against holdout RMSE 11 has ratio
11/10 and is classified healthy. -/
theorem C5_witness :
    overfit_ratio 10 11 = some (11/10) ∧
      ((11/10 : ℚ) = 11 / 10 ∧
      (diagnose 10 11 = ModelHealth.healthy ↔
        (11/10 : ℚ) ≤ 13/10 ∧ ¬ underfitCondition 10 (11/10)) ∧
      (diagnose 10 11 = ModelHealth.overfitting ↔ (13/10 : ℚ) < 11/10) ∧
      (diagnose 10 11 = ModelHealth.underfitting ↔
        underfitCondition 10 (11/10))) := by
  refine ⟨?_, C5_amended_diagnosis_classification 10 11 (11/10) ?_⟩ <;>
    · unfold overfit_ratio
      norm_num

/-- C10 counterexample: `predict` does not route WR and TE to the same
computation — with identical features the two positions produce different
requests (`/predict/wr` versus `/predict/te`), refuting "identical inputs
under the two positions yield identical results" for `predict`. -/
theorem C10_counterexample : predict "WR" () ≠ predict "TE" () := by
  intro h
  have hw : predict "WR" () = Except.ok ⟨"/predict/wr", ()⟩ := rfl
  have ht : predict "TE" () = Except.ok ⟨"/predict/te", ()⟩ := rfl
  rw [hw, ht] at h
  simp only [Except.ok.injEq, ApiRequest.mk.injEq] at h
  exact absurd h.1 (by decide)

/-- C10 (amended): `predict` and `calculateFantasyPoints` each return the
`Unsupported position` error exactly when the uppercased position is not one
of QB, RB, WR, TE; position handling is case-insensitive (equal uppercased
positions give identical successful results); `calculateFantasyPoints`
routes WR and TE to the same receiver computation, so identical inputs under
the two positions yield identical fantasy-point results there, while
`predict` sends WR and TE to distinct position-specific endpoints. -/
theorem C10_amended_position_routing (f : α) (p : PredictionPayload)
    (cfg : ScoringConfig) (pos pos₁ pos₂ : String)
    (hcase : toUpperStr pos₁ = toUpperStr pos₂) :
    (predict pos f = Except.error ("Unsupported position: " ++ pos) ↔
      toUpperStr pos ∉ (["QB", "RB", "WR", "TE"] : List String)) ∧
    (calculateFantasyPoints pos p cfg = Except.error ("Unsupported position: " ++ pos) ↔
      toUpperStr pos ∉ (["QB", "RB", "WR", "TE"] : List String)) ∧
    (predict pos₁ f).toOption = (predict pos₂ f).toOption ∧
    (calculateFantasyPoints pos₁ p cfg).toOption =
      (calculateFantasyPoints pos₂ p cfg).toOption ∧
    calculateFantasyPoints "WR" p cfg = calculateFantasyPoints "TE" p cfg ∧
    predict "WR" f ≠ predict "TE" f := by
  refine ⟨?_, ?_, ?_, ?_, rfl, ?_⟩
  · rcases predict_routes pos f with ⟨h, he⟩ | ⟨h, he⟩ | ⟨h, he⟩ | ⟨h, he⟩ | ⟨h, he⟩ <;>
      rw [he] <;> simp [h]
  · rcases calculateFantasyPoints_routes pos p cfg with
      ⟨h, he⟩ | ⟨h, he⟩ | ⟨h, he⟩ | ⟨h, he⟩ <;> rw [he]
    · simp [h]
    · simp [h]
    · rcases h with h | h <;> simp [h]
    · simp [h]
  · rw [predict_toOption, predict_toOption, hcase]
  · rw [calculateFantasyPoints_toOption, calculateFantasyPoints_toOption, hcase]
  · intro h
    have hw : predict "WR" f = Except.ok ⟨"/predict/wr", f⟩ := rfl
    have ht : predict "TE" f = Except.ok ⟨"/predict/te", f⟩ := rfl
    rw [hw, ht] at h
    simp only [Except.ok.injEq, ApiRequest.mk.injEq] at h
    exact absurd h.1 (by decide)

/-- Witness for C10: positions `qb` and `QB` agree up to case; `K` is
unsupported; WR and TE agree under `calculateFantasyPoints` and differ under
`predict`, all at concrete inputs. -/
theorem C10_witness :
    toUpperStr "qb" = toUpperStr "QB" ∧
    ((predict "K" () = Except.error ("Unsupported position: " ++ "K") ↔
      toUpperStr "K" ∉ (["QB", "RB", "WR", "TE"] : List String)) ∧
    (calculateFantasyPoints "K" samplePayload sampleConfig =
        Except.error ("Unsupported position: " ++ "K") ↔
      toUpperStr "K" ∉ (["QB", "RB", "WR", "TE"] : List String)) ∧
    (predict "qb" ()).toOption = (predict "QB" ()).toOption ∧
    (calculateFantasyPoints "qb" samplePayload sampleConfig).toOption =
      (calculateFantasyPoints "QB" samplePayload sampleConfig).toOption ∧
    calculateFantasyPoints "WR" samplePayload sampleConfig =
      calculateFantasyPoints "TE" samplePayload sampleConfig ∧
    predict "WR" () ≠ predict "TE" ()) :=
  ⟨by decide,
    C10_amended_position_routing () samplePayload sampleConfig "K" "qb" "QB" (by decide)⟩

/-! ## Cache lemmas (helpers) -/

/-- A key never survives its own removal. -/
lemma findEntry_removeKey (es : List CacheEntry) (k : ℕ) :
    findEntry (removeKey es k) k = none := by
  rw [findEntry, List.find?_eq_none]
  intro e he
  have hne := (List.mem_filter.mp he).2
  simp only [bne_iff_ne, ne_eq] at hne
  simp [hne]

/-- The entry list produced by `cachePut`, unfolded. -/
lemma cachePut_entries (c : PredictionCache) (k : ℕ) (v now : ℚ) :
    (cachePut c k v now).entries =
      (if c.maxSize < ((⟨k, v, now⟩ : CacheEntry) :: removeKey c.entries k).length
        then ((⟨k, v, now⟩ : CacheEntry) :: removeKey c.entries k).dropLast
        else (⟨k, v, now⟩ : CacheEntry) :: removeKey c.entries k) := rfl

/-- Putting keeps the capacity unchanged. -/
lemma cachePut_maxSize (c : PredictionCache) (k : ℕ) (v now : ℚ) :
    (cachePut c k v now).maxSize = c.maxSize := rfl

/-- Removal never lengthens the entry list. -/
lemma length_removeKey_le (es : List CacheEntry) (k : ℕ) :
    (removeKey es k).length ≤ es.length :=
  List.length_filter_le _ _

/-- Putting keeps the entry count within capacity. -/
lemma length_cachePut_le (c : PredictionCache) (k : ℕ) (v now : ℚ)
    (h : c.entries.length ≤ c.maxSize) :
    (cachePut c k v now).entries.length ≤ c.maxSize := by
  rw [cachePut_entries]
  have h2 := length_removeKey_le c.entries k
  by_cases hlt : c.maxSize < ((⟨k, v, now⟩ : CacheEntry) :: removeKey c.entries k).length
  · rw [if_pos hlt, List.length_dropLast]
    simp only [List.length_cons]
    omega
  · rw [if_neg hlt]
    simp only [List.length_cons, not_lt] at hlt ⊢
    omega

/-- Removing a key that is absent is a no-op. -/
lemma removeKey_of_fresh (es : List CacheEntry) (k : ℕ)
    (h : findEntry es k = none) : removeKey es k = es := by
  rw [removeKey, List.filter_eq_self]
  intro e he
  have hne := List.find?_eq_none.mp h e he
  simp only [beq_iff_eq] at hne
  simp only [bne_iff_ne, ne_eq]
  exact hne

/-- A key absent before a `cachePut` of a different key is still absent. -/
lemma findEntry_cachePut_of_ne (c : PredictionCache) (key k' : ℕ) (v t : ℚ)
    (hne : k' ≠ key) (h : findEntry c.entries k' = none) :
    findEntry (cachePut c key v t).entries k' = none := by
  rw [cachePut_entries, findEntry, List.find?_eq_none]
  intro e he
  have hmem : e ∈ (⟨key, v, t⟩ : CacheEntry) :: removeKey c.entries key := by
    by_cases hlt : c.maxSize < ((⟨key, v, t⟩ : CacheEntry) :: removeKey c.entries key).length
    · rw [if_pos hlt] at he
      exact List.dropLast_subset _ he
    · rwa [if_neg hlt] at he
  rcases List.mem_cons.mp hmem with rfl | hmem'
  · simp [Ne.symm hne]
  · have hip : e ∈ c.entries := (List.mem_filter.mp hmem').1
    exact List.find?_eq_none.mp h e hip

/-- Truncating the appended tail early does not change a truncated
append. -/
lemma take_append_take {γ : Type _} (A B : List γ) (m : ℕ) :
    (A ++ B.take m).take m = (A ++ B).take m := by
  rw [List.take_append_eq_append_take, List.take_append_eq_append_take, List.take_take]
  rw [min_eq_left (Nat.sub_le m A.length)]

/-- Inserting a fresh key puts it at the front and truncates to
capacity. -/
lemma cacheKeys_cachePut_fresh (c : PredictionCache) (k : ℕ) (v t : ℚ)
    (hfresh : findEntry c.entries k = none) (hlen : c.entries.length ≤ c.maxSize) :
    cacheKeys (cachePut c k v t) = (k :: cacheKeys c).take c.maxSize := by
  rw [cacheKeys, cachePut_entries, removeKey_of_fresh c.entries k hfresh]
  by_cases hlt : c.maxSize < ((⟨k, v, t⟩ : CacheEntry) :: c.entries).length
  · rw [if_pos hlt]
    have hm : c.entries.length = c.maxSize := by
      simp only [List.length_cons] at hlt
      omega
    rw [List.map_dropLast, List.dropLast_eq_take, List.map_cons]
    simp only [List.length_cons, List.length_map]
    rw [hm, Nat.add_sub_cancel]
    rfl
  · rw [if_neg hlt]
    simp only [List.length_cons, not_lt] at hlt
    rw [List.map_cons]
    rw [List.take_of_length_le
      (by simp only [List.length_cons, cacheKeys, List.length_map]; exact hlt)]
    rfl

/-- Folding fresh, duplicate-free keys into a within-capacity cache stacks
them most-recent-first, truncated to capacity. -/
lemma cacheKeys_foldPut_fresh :
    ∀ (ks : List ℕ) (c : PredictionCache), ks.Nodup →
      (∀ key ∈ ks, findEntry c.entries key = none) →
      c.entries.length ≤ c.maxSize →
      cacheKeys (ks.foldl (fun acc key => cachePut acc key 0 0) c) =
        (ks.reverse ++ cacheKeys c).take c.maxSize
  | [], c, _, _, hlen => by
    simp only [List.foldl_nil, List.reverse_nil, List.nil_append]
    refine (List.take_of_length_le ?_).symm
    rw [cacheKeys, List.length_map]
    exact hlen
  | key :: rest, c, hnd, hfresh, hlen => by
    have hfk : findEntry c.entries key = none := hfresh key (List.mem_cons_self _ _)
    have h1 : cacheKeys (cachePut c key 0 0) = (key :: cacheKeys c).take c.maxSize :=
      cacheKeys_cachePut_fresh c key 0 0 hfk hlen
    have hlen' : (cachePut c key 0 0).entries.length ≤ (cachePut c key 0 0).maxSize := by
      rw [cachePut_maxSize]
      exact length_cachePut_le c key 0 0 hlen
    have hfresh' : ∀ k' ∈ rest, findEntry (cachePut c key 0 0).entries k' = none := by
      intro k' hk'
      exact findEntry_cachePut_of_ne c key k' 0 0
        (fun he => (List.nodup_cons.mp hnd).1 (he ▸ hk'))
        (hfresh k' (List.mem_cons_of_mem _ hk'))
    have IH := cacheKeys_foldPut_fresh rest (cachePut c key 0 0)
      (List.nodup_cons.mp hnd).2 hfresh' hlen'
    rw [List.foldl_cons, IH, cachePut_maxSize, h1, List.reverse_cons, List.append_assoc,
      List.singleton_append]
    exact take_append_take _ _ _

/-- Dropping the last of a reversal drops the head. -/
lemma reverse_dropLast_eq {γ : Type _} (l : List γ) :
    l.reverse.dropLast = (l.drop 1).reverse := by
  cases l with
  | nil => rfl
  | cons a xs =>
    rw [List.reverse_cons, List.dropLast_concat]
    simp

/-- C6: for every cache state, key and time, `get` returns a hit exactly
when an entry for the key exists and `now - insertion_time < TTL`; a live
entry's value is returned; an expired entry yields a miss and is removed, so
no entry is ever returned past its TTL. -/
theorem C6_cache_get_hit_iff_within_ttl (c : PredictionCache) (k : ℕ) (now : ℚ) :
    ((cacheGet c k now).1.isSome ↔
      ∃ e, findEntry c.entries k = some e ∧ now - e.insertedAt < c.ttl) ∧
    (∀ e, findEntry c.entries k = some e → now - e.insertedAt < c.ttl →
      (cacheGet c k now).1 = some e.value) ∧
    (∀ e, findEntry c.entries k = some e → c.ttl ≤ now - e.insertedAt →
      (cacheGet c k now).1 = none ∧
        findEntry (cacheGet c k now).2.entries k = none) := by
  cases hfe : findEntry c.entries k with
  | none =>
    refine ⟨?_, ?_, ?_⟩
    · simp [cacheGet, hfe]
    · intro e he
      exact absurd he (by simp)
    · intro e he
      exact absurd he (by simp)
  | some e =>
    by_cases ht : now - e.insertedAt < c.ttl
    · refine ⟨?_, ?_, ?_⟩
      · simp only [cacheGet, hfe, if_pos ht]
        exact iff_of_true (by simp) ⟨e, rfl, ht⟩
      · intro e' he' _
        cases Option.some.inj he'
        simp [cacheGet, hfe, if_pos ht]
      · intro e' he' hge
        cases Option.some.inj he'
        exact absurd ht (not_lt.mpr hge)
    · refine ⟨?_, ?_, ?_⟩
      · simp only [cacheGet, hfe, if_neg ht]
        refine iff_of_false (by simp) ?_
        rintro ⟨e', he', hlt⟩
        cases Option.some.inj he'
        exact ht hlt
      · intro e' he' hlt
        cases Option.some.inj he'
        exact absurd hlt ht
      · intro e' he' _
        refine ⟨by simp [cacheGet, hfe, if_neg ht], ?_⟩
        simp only [cacheGet, hfe, if_neg ht]
        exact findEntry_removeKey c.entries k

/-- Witness for C6: a single-entry cache with TTL 100 queried 150 time units
after insertion misses and drops the entry. -/
theorem C6_witness :
    findEntry (⟨[⟨1, 5, 0⟩], 10, 100, 0, 0⟩ : PredictionCache).entries 1 =
        some ⟨1, 5, 0⟩ ∧
      (⟨[⟨1, 5, 0⟩], 10, 100, 0, 0⟩ : PredictionCache).ttl ≤
        150 - (⟨1, 5, 0⟩ : CacheEntry).insertedAt ∧
      ((cacheGet ⟨[⟨1, 5, 0⟩], 10, 100, 0, 0⟩ 1 150).1 = none ∧
        findEntry (cacheGet ⟨[⟨1, 5, 0⟩], 10, 100, 0, 0⟩ 1 150).2.entries 1 = none) :=
  ⟨by decide, by norm_num,
    (C6_cache_get_hit_iff_within_ttl ⟨[⟨1, 5, 0⟩], 10, 100, 0, 0⟩ 1 150).2.2
      ⟨1, 5, 0⟩ (by decide) (by norm_num)⟩

/-- C7: `put` keeps a within-capacity cache within capacity (as does `get`),
and inserting N+1 distinct keys into an empty cache of capacity N leaves
exactly the most recent N keys, evicting exactly the least-recently-used
(first-inserted) key. -/
theorem C7_cache_put_capacity_and_lru_eviction
    (c : PredictionCache) (k : ℕ) (v now : ℚ) (N : ℕ) (ks : List ℕ) (ttl : ℚ)
    (hsize : c.entries.length ≤ c.maxSize)
    (hnd : ks.Nodup) (hlen : ks.length = N + 1) :
    (cachePut c k v now).entries.length ≤ c.maxSize ∧
    (cacheGet c k now).2.entries.length ≤ c.maxSize ∧
    cacheKeys (ks.foldl (fun acc key => cachePut acc key 0 0) (emptyCache N ttl)) =
      (ks.drop 1).reverse := by
  refine ⟨length_cachePut_le c k v now hsize, ?_, ?_⟩
  · cases hfe : findEntry c.entries k with
    | none => simpa [cacheGet, hfe] using hsize
    | some e =>
      have hfe' : List.find? (fun x => x.key == k) c.entries = some e := hfe
      have hmem : e ∈ c.entries := List.mem_of_find?_eq_some hfe'
      have hkey : (e.key == k) = true := by
        have h2 := List.find?_some hfe'
        exact h2
      have hlt : (removeKey c.entries k).length < c.entries.length := by
        apply List.length_filter_lt_length_iff_exists.mpr
        exact ⟨e, hmem, by simp [bne_iff_ne, beq_iff_eq.mp hkey]⟩
      by_cases ht : now - e.insertedAt < c.ttl
      · simp only [cacheGet, hfe, if_pos ht, List.length_cons]
        omega
      · simp only [cacheGet, hfe, if_neg ht]
        omega
  · have h0 : ∀ key ∈ ks, findEntry (emptyCache N ttl).entries key = none := by
      intro key _
      rfl
    have hbase := cacheKeys_foldPut_fresh ks (emptyCache N ttl) hnd h0
      (by simp [emptyCache])
    rw [hbase]
    have hkeys : cacheKeys (emptyCache N ttl) = [] := rfl
    rw [hkeys, List.append_nil]
    have hrl : ks.reverse.length = N + 1 := by
      rw [List.length_reverse, hlen]
    show ks.reverse.take (emptyCache N ttl).maxSize = (ks.drop 1).reverse
    have hmax : (emptyCache N ttl).maxSize = ks.reverse.length - 1 := by
      rw [hrl]
      rfl
    rw [hmax, ← List.dropLast_eq_take, reverse_dropLast_eq]

/-- Witness for C7: a full one-slot cache stays within capacity under `put`
and `get`, and folding the three distinct keys 10, 20, 30 into an empty
two-slot cache leaves keys `[30, 20]` — exactly key 10, the
least-recently-used, is evicted. -/
theorem C7_witness :
    (⟨[⟨1, 2, 3⟩], 1, 100, 0, 0⟩ : PredictionCache).entries.length ≤
        (⟨[⟨1, 2, 3⟩], 1, 100, 0, 0⟩ : PredictionCache).maxSize ∧
      ([10, 20, 30] : List ℕ).Nodup ∧
      ([10, 20, 30] : List ℕ).length = 2 + 1 ∧
      ((cachePut ⟨[⟨1, 2, 3⟩], 1, 100, 0, 0⟩ 9 7 4).entries.length ≤
          (⟨[⟨1, 2, 3⟩], 1, 100, 0, 0⟩ : PredictionCache).maxSize ∧
        (cacheGet ⟨[⟨1, 2, 3⟩], 1, 100, 0, 0⟩ 9 4).2.entries.length ≤
          (⟨[⟨1, 2, 3⟩], 1, 100, 0, 0⟩ : PredictionCache).maxSize ∧
        cacheKeys (([10, 20, 30] : List ℕ).foldl
            (fun acc key => cachePut acc key 0 0) (emptyCache 2 50)) =
          (([10, 20, 30] : List ℕ).drop 1).reverse) :=
  ⟨by decide, by decide, by decide,
    C7_cache_put_capacity_and_lru_eviction ⟨[⟨1, 2, 3⟩], 1, 100, 0, 0⟩ 9 7 4 2
      [10, 20, 30] 50 (by decide) (by decide) (by decide)⟩

/-! ## Rolling feature lemmas -/

/-- The rolling feature at row `k` equals the spec characterization: the
mean over the up-to-`W` immediately preceding rows, with default 0. -/
lemma compute_rolling_stats_get (W k : ℕ) (rows : List ℚ) (hk : k < rows.length) :
    (compute_rolling_stats W rows).get? k = some (rollingFeatureSpec W (rows.take k)) := by
  rw [compute_rolling_stats, List.get?_map, List.get?_range hk]
  cases k with
  | zero => simp [rollingFeatureSpec]
  | succ j =>
    have hne : rows.take (j + 1) ≠ [] := by
      apply List.ne_nil_of_length_pos
      rw [List.length_take]
      omega
    simp only [Option.map_some', Nat.succ_ne_zero, if_false, Nat.succ_sub_one,
      rollingMeanInclusive, rollingFeatureSpec, if_neg hne]

/-- C1: for every player history, the rolling feature of the k-th career
game is the mean of each tracked stat over the up to W immediately preceding
games only (fewer than W averaged over those available, none defaulting to
0); it is unchanged by whatever happens from game k on; and with W = 3 and
prior passing yards 200, 220, 260 the next game's feature is
(200+220+260)/3 = 680/3. -/
theorem C1_rolling_feature_mean_of_prior_window
    (W k : ℕ) (rows rows' : List ℚ) (x : ℚ)
    (hk : k < rows.length) (hk' : k < rows'.length)
    (hpre : rows.take k = rows'.take k) :
    (compute_rolling_stats W rows).get? k = some (rollingFeatureSpec W (rows.take k)) ∧
    (compute_rolling_stats W rows).get? k = (compute_rolling_stats W rows').get? k ∧
    rollingFeatureSpec 3 [200, 220, 260] = 680 / 3 ∧
    (compute_rolling_stats 3 [200, 220, 260, x]).get? 3 = some (680 / 3) := by
  have hconc : rollingFeatureSpec 3 [200, 220, 260] = 680 / 3 := by
    rw [rollingFeatureSpec, if_neg (show ¬([200, 220, 260] : List ℚ) = [] by simp)]
    norm_num
  refine ⟨compute_rolling_stats_get W k rows hk, ?_, hconc, ?_⟩
  · rw [compute_rolling_stats_get W k rows hk, compute_rolling_stats_get W k rows' hk',
      hpre]
  · rw [compute_rolling_stats_get 3 3 [200, 220, 260, x] (by norm_num)]
    rw [show ([200, 220, 260, x] : List ℚ).take 3 = [200, 220, 260] from rfl, hconc]

/-- Witness for C1: a four-game history with priors 200, 220, 260 — the
fourth game's rolling feature is 680/3 however the fourth game goes, and an
alternative history agreeing on the first three games gives the same
feature. -/
theorem C1_witness :
    (3 < ([200, 220, 260, 999] : List ℚ).length ∧
      3 < ([200, 220, 260, 5] : List ℚ).length ∧
      ([200, 220, 260, 999] : List ℚ).take 3 = ([200, 220, 260, 5] : List ℚ).take 3) ∧
    ((compute_rolling_stats 3 [200, 220, 260, 999]).get? 3 =
        some (rollingFeatureSpec 3 (([200, 220, 260, 999] : List ℚ).take 3)) ∧
      (compute_rolling_stats 3 [200, 220, 260, 999]).get? 3 =
        (compute_rolling_stats 3 [200, 220, 260, 5]).get? 3 ∧
      rollingFeatureSpec 3 [200, 220, 260] = 680 / 3 ∧
      (compute_rolling_stats 3 [200, 220, 260, 77]).get? 3 = some (680 / 3)) :=
  ⟨⟨by norm_num, by norm_num, rfl⟩,
    C1_rolling_feature_mean_of_prior_window 3 3 [200, 220, 260, 999] [200, 220, 260, 5]
      77 (by norm_num) (by norm_num) rfl⟩

/-! ## Defensive ranking lemmas -/

/-- Yards allowed through prior weeks depend only on the prior-week rows
(up to order). -/
lemma yardsAllowedBefore_eq_of_perm (recs recs' : List PlayerWeekRecord)
    (team season week : ℕ)
    (h : (recs.filter (priorWeekRow season week)).Perm
      (recs'.filter (priorWeekRow season week))) :
    yardsAllowedBefore recs team season week =
      yardsAllowedBefore recs' team season week := by
  have h2 := (h.filter (fun r => r.opponent == team)).map (fun r => r.yards)
  rw [List.filter_filter, List.filter_filter] at h2
  exact h2.sum_eq

/-- The week-N snapshot depends only on the prior-week rows (up to
order). -/
lemma rankings_eq_of_perm (recs recs' : List PlayerWeekRecord) (teams : List ℕ)
    (season week : ℕ)
    (h : (recs.filter (priorWeekRow season week)).Perm
      (recs'.filter (priorWeekRow season week))) :
    compute_defensive_rankings recs teams season week =
      compute_defensive_rankings recs' teams season week := by
  unfold compute_defensive_rankings
  by_cases hw : week ≤ 1
  · rw [if_pos hw, if_pos hw]
  · rw [if_neg hw, if_neg hw]
    have he : teams.map (fun t => (t, yardsAllowedBefore recs t season week)) =
        teams.map (fun t => (t, yardsAllowedBefore recs' t season week)) := by
      apply List.map_congr_left
      intro t _
      rw [yardsAllowedBefore_eq_of_perm recs recs' t season week h]
    rw [he]

/-- C2: the week-N defensive snapshot is computed exclusively from
player-week rows of weeks 1..N-1 of the same season — any two row tables
agreeing (up to order) on those rows produce identical week-N snapshots, so
adding, removing or reordering week-N-or-later data changes nothing — and
week 1 of every season yields the explicit null snapshot. -/
theorem C2_snapshot_prior_weeks_only_and_week1_null
    (recs recs' : List PlayerWeekRecord) (teams : List ℕ) (season week : ℕ)
    (h : (recs.filter (priorWeekRow season week)).Perm
      (recs'.filter (priorWeekRow season week))) :
    compute_defensive_rankings recs teams season 1 = none ∧
    compute_defensive_rankings recs teams season week =
      compute_defensive_rankings recs' teams season week :=
  ⟨rfl, rankings_eq_of_perm recs recs' teams season week h⟩

/-- Witness for C2: two row tables differing only in week-5-and-later rows
have identical week-5 snapshots for teams 3 and 7 of season 2024, and the
week-1 snapshot is null. -/
theorem C2_witness :
    (List.filter (priorWeekRow 2024 5) [⟨7, 2024, 1, 100⟩, ⟨7, 2024, 5, 50⟩]).Perm
      (List.filter (priorWeekRow 2024 5)
        [⟨7, 2024, 1, 100⟩, ⟨7, 2024, 9, 60⟩, ⟨3, 2024, 5, 10⟩]) ∧
    (compute_defensive_rankings [⟨7, 2024, 1, 100⟩, ⟨7, 2024, 5, 50⟩] [3, 7] 2024 1 =
        none ∧
      compute_defensive_rankings [⟨7, 2024, 1, 100⟩, ⟨7, 2024, 5, 50⟩] [3, 7] 2024 5 =
        compute_defensive_rankings
          [⟨7, 2024, 1, 100⟩, ⟨7, 2024, 9, 60⟩, ⟨3, 2024, 5, 10⟩] [3, 7] 2024 5) :=
  ⟨by decide,
    C2_snapshot_prior_weeks_only_and_week1_null
      [⟨7, 2024, 1, 100⟩, ⟨7, 2024, 5, 50⟩]
      [⟨7, 2024, 1, 100⟩, ⟨7, 2024, 9, 60⟩, ⟨3, 2024, 5, 10⟩]
      [3, 7] 2024 5 (by decide)⟩

/-! ## Sorting lemmas for the ranker -/

/-- The ranking comparison as a propositional relation. -/
def lexLeP (a b : ℕ × ℚ) : Prop := lexLe a b = true

/-- The comparison `lexLe` unfolded to its propositional content. -/
lemma lexLe_iff (a b : ℕ × ℚ) :
    lexLeP a b ↔ a.2 < b.2 ∨ (a.2 = b.2 ∧ a.1 ≤ b.1) := by
  simp [lexLeP, lexLe]

/-- The comparison is reflexive. -/
lemma lexLe_refl (a : ℕ × ℚ) : lexLeP a a := (lexLe_iff a a).mpr (Or.inr ⟨rfl, le_refl _⟩)

/-- The comparison is total. -/
lemma lexLe_total (a b : ℕ × ℚ) : lexLeP a b ∨ lexLeP b a := by
  rw [lexLe_iff, lexLe_iff]
  rcases lt_trichotomy a.2 b.2 with h | h | h
  · exact Or.inl (Or.inl h)
  · rcases le_total a.1 b.1 with h1 | h1
    · exact Or.inl (Or.inr ⟨h, h1⟩)
    · exact Or.inr (Or.inr ⟨h.symm, h1⟩)
  · exact Or.inr (Or.inl h)

/-- The comparison is transitive. -/
lemma lexLe_trans {a b c : ℕ × ℚ} (h1 : lexLeP a b) (h2 : lexLeP b c) : lexLeP a c := by
  rw [lexLe_iff] at *
  rcases h1 with h1 | ⟨h1e, h1t⟩ <;> rcases h2 with h2 | ⟨h2e, h2t⟩
  · exact Or.inl (lt_trans h1 h2)
  · exact Or.inl (h2e ▸ h1)
  · exact Or.inl (h1e ▸ h2)
  · exact Or.inr ⟨h1e.trans h2e, le_trans h1t h2t⟩

/-- The strict lexicographic order on (yards allowed, team identifier):
fewer yards first, ties broken by the smaller team identifier.  This is the
order in which the ranker lists teams. -/
def lexLtP (a b : ℕ × ℚ) : Prop := a.2 < b.2 ∨ (a.2 = b.2 ∧ a.1 < b.1)

/-- Strictly-lex-smaller entries are never reached from above. -/
lemma not_lexLe_of_lexLt {a b : ℕ × ℚ} (h : lexLtP a b) : ¬ lexLeP b a := by
  intro hle
  rw [lexLe_iff] at hle
  rcases h with h | ⟨he, hl⟩
  · rcases hle with h2 | ⟨h2e, _⟩
    · exact absurd h (not_lt.mpr (le_of_lt h2))
    · exact absurd h (not_lt.mpr (le_of_eq h2e))
  · rcases hle with h2 | ⟨h2e, h2l⟩
    · exact absurd h2 (not_lt.mpr (le_of_eq he))
    · exact absurd hl (not_lt.mpr h2l)

/-- Insertion preserves the multiset of elements. -/
lemma insertLex_perm (x : ℕ × ℚ) (l : List (ℕ × ℚ)) :
    (insertLex x l).Perm (x :: l) := by
  induction l with
  | nil => exact List.Perm.refl _
  | cons y ys ih =>
    rw [insertLex]
    by_cases h : lexLe x y
    · rw [if_pos h]
    · rw [if_neg h]
      exact (ih.cons y).trans (List.Perm.swap x y ys)

/-- Sorting preserves the multiset of elements. -/
lemma sortLex_perm (l : List (ℕ × ℚ)) : (sortLex l).Perm l := by
  induction l with
  | nil => exact List.Perm.refl _
  | cons x xs ih =>
    rw [sortLex]
    exact (insertLex_perm x (sortLex xs)).trans (ih.cons x)

/-- Inserting into a sorted list keeps it sorted. -/
lemma insertLex_pairwise (x : ℕ × ℚ) (l : List (ℕ × ℚ))
    (h : l.Pairwise lexLeP) : (insertLex x l).Pairwise lexLeP := by
  induction l with
  | nil => simp [insertLex, lexLeP]
  | cons y ys ih =>
    rw [insertLex]
    rcases List.pairwise_cons.mp h with ⟨hy, hys⟩
    by_cases hxy : lexLe x y
    · rw [if_pos hxy]
      refine List.pairwise_cons.mpr ⟨?_, h⟩
      intro z hz
      rcases List.mem_cons.mp hz with rfl | hz'
      · exact hxy
      · exact lexLe_trans hxy (hy z hz')
    · rw [if_neg hxy]
      have hyx : lexLeP y x := (lexLe_total x y).resolve_left hxy
      refine List.pairwise_cons.mpr ⟨?_, ih hys⟩
      intro z hz
      rcases List.mem_cons.mp ((insertLex_perm x ys).mem_iff.mp hz) with rfl | hz'
      · exact hyx
      · exact hy z hz'

/-- The ranking sort is sorted. -/
lemma sortLex_pairwise (l : List (ℕ × ℚ)) : (sortLex l).Pairwise lexLeP := by
  induction l with
  | nil => simp [sortLex]
  | cons x xs ih =>
    rw [sortLex]
    exact insertLex_pairwise x (sortLex xs) ih

/-- In a sorted list the head is below every element. -/
lemma pairwise_head_le {l : List (ℕ × ℚ)} (h : l.Pairwise lexLeP) (hne : l ≠ []) :
    ∀ y ∈ l, lexLeP (l.head hne) y := by
  cases l with
  | nil => exact absurd rfl hne
  | cons a rest =>
    intro y hy
    rw [List.head_cons]
    rcases List.mem_cons.mp hy with rfl | hy'
    · exact lexLe_refl y
    · exact (List.pairwise_cons.mp h).1 y hy'

/-- In a sorted list every element is below the last. -/
lemma pairwise_le_getLast {l : List (ℕ × ℚ)} (h : l.Pairwise lexLeP) (hne : l ≠ []) :
    ∀ y ∈ l, lexLeP y (l.getLast hne) := by
  induction l with
  | nil => exact absurd rfl hne
  | cons a rest ih =>
    intro y hy
    cases rest with
    | nil =>
      rw [List.mem_singleton.mp hy]
      exact lexLe_refl _
    | cons b rest2 =>
      have hne2 : b :: rest2 ≠ [] := by simp
      rw [List.getLast_cons hne2]
      rcases List.mem_cons.mp hy with rfl | hy'
      · exact (List.pairwise_cons.mp h).1 _ (List.getLast_mem hne2)
      · exact ih (List.pairwise_cons.mp h).2 hne2 y hy'

/-- Membership in an enumeration bounds the index and projects into the
list. -/
lemma mem_enum_bound {γ : Type _} {l : List γ} {p : ℕ × γ} (h : p ∈ l.enum) :
    p.1 < l.length := by
  rw [List.enum_eq_zip_range] at h
  have := List.of_mem_zip (a := p.1) (b := p.2) (by simpa using h)
  exact List.mem_range.mp this.1

/-- The non-null branch of the ranker, unfolded. -/
lemma compute_defensive_rankings_eq (recs : List PlayerWeekRecord) (teams : List ℕ)
    (season week : ℕ) (hw : ¬ week ≤ 1) :
    compute_defensive_rankings recs teams season week =
      some ((sortLex (teams.map
          (fun t => (t, yardsAllowedBefore recs t season week)))).enum.map
        (fun p => (p.2.1, p.1 + 1, normalizeRank p.1
          (sortLex (teams.map
            (fun t => (t, yardsAllowedBefore recs t season week)))).length))) := by
  rw [compute_defensive_rankings, if_neg hw]

/-- C4: for every (season, week) pair with at least one strictly prior week
of data, the snapshot exists and ranks all 32 teams ascending by yards
allowed with each rank normalized to (rank-1)/31, so every strength lies in
[0,1]; the team least in the (yards allowed, team identifier) lexicographic
order — the fewest-yards defense, ties broken by team identifier — sits
first with rank 1 and strength exactly 0, the lex-greatest (worst) defense
sits last with rank 32 and strength exactly 1, and appending current-week
(or later) rows changes nothing. -/
theorem C4_ranking_ascending_normalized
    (recs : List PlayerWeekRecord) (teams : List ℕ) (season week : ℕ)
    (h32 : teams.length = 32) (hw : 2 ≤ week) :
    ∃ rl, compute_defensive_rankings recs teams season week = some rl ∧
      rl.length = 32 ∧
      (∀ e ∈ rl, 1 ≤ e.2.1 ∧ e.2.1 ≤ 32 ∧
        e.2.2 = ((e.2.1 : ℚ) - 1) / 31 ∧ 0 ≤ e.2.2 ∧ e.2.2 ≤ 1) ∧
      (∀ tmin ∈ teams,
        (∀ u ∈ teams, u ≠ tmin →
          lexLtP (tmin, yardsAllowedBefore recs tmin season week)
            (u, yardsAllowedBefore recs u season week)) →
        rl.get? 0 = some (tmin, 1, 0)) ∧
      (∀ tmax ∈ teams,
        (∀ u ∈ teams, u ≠ tmax →
          lexLtP (u, yardsAllowedBefore recs u season week)
            (tmax, yardsAllowedBefore recs tmax season week)) →
        rl.get? 31 = some (tmax, 32, 1)) ∧
      (∀ extra : List PlayerWeekRecord, (∀ r ∈ extra, week ≤ r.week) →
        compute_defensive_rankings (recs ++ extra) teams season week =
          compute_defensive_rankings recs teams season week) := by
  have hwne : ¬ week ≤ 1 := by omega
  refine ⟨_, compute_defensive_rankings_eq recs teams season week hwne, ?_, ?_, ?_, ?_, ?_⟩
  all_goals
    have hperm := sortLex_perm (teams.map
      (fun t => (t, yardsAllowedBefore recs t season week)))
    have hlenS : (sortLex (teams.map
        (fun t => (t, yardsAllowedBefore recs t season week)))).length = 32 := by
      rw [hperm.length_eq, List.length_map, h32]
    have hneS : sortLex (teams.map
        (fun t => (t, yardsAllowedBefore recs t season week))) ≠ [] :=
      List.ne_nil_of_length_pos (by omega)
  · rw [List.length_map, List.enum_length, hlenS]
  · intro e he
    rcases List.mem_map.mp he with ⟨p, hp, rfl⟩
    have hi : p.1 < 32 := by
      have := mem_enum_bound hp
      omega
    have hnr : normalizeRank p.1 (sortLex (teams.map
        (fun t => (t, yardsAllowedBefore recs t season week)))).length =
        (p.1 : ℚ) / 31 := by
      rw [hlenS, normalizeRank]
      norm_num
    refine ⟨Nat.le_add_left 1 p.1, by show p.1 + 1 ≤ 32; omega, ?_, ?_, ?_⟩
    · rw [hnr]
      push_cast
      ring_nf
    · rw [hnr]
      positivity
    · rw [hnr]
      rw [div_le_one (by norm_num)]
      have : (p.1 : ℚ) ≤ 31 := by
        exact_mod_cast Nat.lt_succ_iff.mp hi
      linarith
  · intro tmin hmin_mem hlex
    have hhead : (sortLex (teams.map
        (fun t => (t, yardsAllowedBefore recs t season week)))).head hneS =
        (tmin, yardsAllowedBefore recs tmin season week) := by
      have hmem := List.head_mem hneS
      rcases List.mem_map.mp (hperm.mem_iff.mp hmem) with ⟨u, hu, hau⟩
      have hminS : (tmin, yardsAllowedBefore recs tmin season week) ∈
          sortLex (teams.map (fun t => (t, yardsAllowedBefore recs t season week))) :=
        hperm.mem_iff.mpr (List.mem_map.mpr ⟨tmin, hmin_mem, rfl⟩)
      have hle := pairwise_head_le (sortLex_pairwise _) hneS _ hminS
      by_cases hut : u = tmin
      · rw [← hau, hut]
      · exfalso
        rw [← hau] at hle
        exact not_lexLe_of_lexLt (hlex u hu hut) hle
    rw [List.get?_map, List.get?_enum, List.get?_zero, List.head?_eq_head hneS, hhead]
    simp only [Option.map_some']
    rw [normalizeRank, hlenS]
    norm_num
  · intro tmax hmax_mem hlex
    have hlast : (sortLex (teams.map
        (fun t => (t, yardsAllowedBefore recs t season week)))).getLast hneS =
        (tmax, yardsAllowedBefore recs tmax season week) := by
      have hmem := List.getLast_mem hneS
      rcases List.mem_map.mp (hperm.mem_iff.mp hmem) with ⟨u, hu, hau⟩
      have hmaxS : (tmax, yardsAllowedBefore recs tmax season week) ∈
          sortLex (teams.map (fun t => (t, yardsAllowedBefore recs t season week))) :=
        hperm.mem_iff.mpr (List.mem_map.mpr ⟨tmax, hmax_mem, rfl⟩)
      have hle := pairwise_le_getLast (sortLex_pairwise _) hneS _ hmaxS
      by_cases hut : u = tmax
      · rw [← hau, hut]
      · exfalso
        rw [← hau] at hle
        exact not_lexLe_of_lexLt (hlex u hu hut) hle
    have h31 : (sortLex (teams.map
        (fun t => (t, yardsAllowedBefore recs t season week)))).get? 31 =
        some ((sortLex (teams.map
          (fun t => (t, yardsAllowedBefore recs t season week)))).getLast hneS) := by
      have := List.getLast?_eq_get? (sortLex (teams.map
        (fun t => (t, yardsAllowedBefore recs t season week))))
      rw [hlenS] at this
      rw [show (32 : ℕ) - 1 = 31 from rfl] at this
      rw [← this, List.getLast?_eq_getLast _ hneS]
    rw [List.get?_map, List.get?_enum, h31, hlast]
    simp only [Option.map_some']
    rw [normalizeRank, hlenS]
    norm_num
  · intro extra hextra
    apply rankings_eq_of_perm
    rw [List.filter_append]
    rw [show List.filter (priorWeekRow season week) extra = [] from ?_]
    · rw [List.append_nil]
    · rw [List.filter_eq_nil]
      intro r hr hcontra
      rw [priorWeekRow, Bool.and_eq_true, decide_eq_true_eq] at hcontra
      have := hextra r hr
      omega

/-- Concrete rows for the ranking witness: through week 5, team 0's defense
has strictly the fewest yards allowed and team 31's strictly the most. -/
def rankWitnessRows : List PlayerWeekRecord :=
  [⟨0, 2024, 3, -7⟩, ⟨31, 2024, 2, 50⟩]

/-- Witness for C4: across the 32 teams 0..31 with the concrete rows, the
week-6 snapshot exists with 32 normalized entries, team 0 (lex-least in
yards allowed) first with rank 1 and strength 0, and team 31 (lex-greatest)
last with rank 32 and strength 1. -/
theorem C4_witness :
    ((List.range 32).length = 32 ∧ 2 ≤ 6) ∧
    (∃ rl, compute_defensive_rankings rankWitnessRows (List.range 32) 2024 6 = some rl ∧
      rl.length = 32 ∧
      (∀ e ∈ rl, 1 ≤ e.2.1 ∧ e.2.1 ≤ 32 ∧
        e.2.2 = ((e.2.1 : ℚ) - 1) / 31 ∧ 0 ≤ e.2.2 ∧ e.2.2 ≤ 1) ∧
      rl.get? 0 = some (0, 1, 0) ∧
      rl.get? 31 = some (31, 32, 1) ∧
      (∀ extra : List PlayerWeekRecord, (∀ r ∈ extra, 6 ≤ r.week) →
        compute_defensive_rankings (rankWitnessRows ++ extra) (List.range 32) 2024 6 =
          compute_defensive_rankings rankWitnessRows (List.range 32) 2024 6)) := by
  have hY0 : yardsAllowedBefore rankWitnessRows 0 2024 6 = -7 := by
    norm_num [yardsAllowedBefore, rankWitnessRows, priorWeekRow]
  have hY31 : yardsAllowedBefore rankWitnessRows 31 2024 6 = 50 := by
    norm_num [yardsAllowedBefore, rankWitnessRows, priorWeekRow]
  have hYo : ∀ t : ℕ, t ≠ 0 → t ≠ 31 →
      yardsAllowedBefore rankWitnessRows t 2024 6 = 0 := by
    intro t h0 h31
    have e1 : ((0 : ℕ) == t) = false := beq_eq_false_iff_ne.mpr (Ne.symm h0)
    have e2 : ((31 : ℕ) == t) = false := beq_eq_false_iff_ne.mpr (Ne.symm h31)
    simp [yardsAllowedBefore, rankWitnessRows, priorWeekRow, List.filter_cons, e1, e2]
  have hminlex : ∀ u ∈ List.range 32, u ≠ 0 →
      lexLtP (0, yardsAllowedBefore rankWitnessRows 0 2024 6)
        (u, yardsAllowedBefore rankWitnessRows u 2024 6) := by
    intro u _ hne
    left
    show yardsAllowedBefore rankWitnessRows 0 2024 6 <
      yardsAllowedBefore rankWitnessRows u 2024 6
    rw [hY0]
    by_cases h31 : u = 31
    · rw [h31, hY31]
      norm_num
    · rw [hYo u hne h31]
      norm_num
  have hmaxlex : ∀ u ∈ List.range 32, u ≠ 31 →
      lexLtP (u, yardsAllowedBefore rankWitnessRows u 2024 6)
        (31, yardsAllowedBefore rankWitnessRows 31 2024 6) := by
    intro u _ hne
    left
    show yardsAllowedBefore rankWitnessRows u 2024 6 <
      yardsAllowedBefore rankWitnessRows 31 2024 6
    rw [hY31]
    by_cases h0 : u = 0
    · rw [h0, hY0]
      norm_num
    · rw [hYo u h0 hne]
      norm_num
  obtain ⟨rl, h1, h2, h3, h4, h5, h6⟩ :=
    C4_ranking_ascending_normalized rankWitnessRows (List.range 32) 2024 6
      (by decide) (by norm_num)
  exact ⟨⟨by decide, by norm_num⟩,
    rl, h1, h2, h3, h4 0 (by decide) hminlex, h5 31 (by decide) hmaxlex, h6⟩

end LineupIQ
